import Mathlib

/-!
Shallow embedding of the more-jpeg service core (src/main.rs and
src/mimes.rs): the bitcrush transform pipeline, the ULID string codec used
for image identifiers, the in-memory image store, and the upload and
retrieval handlers together with their error funnels.

Image dimensions in the source are u32; arithmetic that can overflow is
written with an explicit modulus.  Pixel contents are abstracted as a list
of tags: every image operation records itself on the payload with a
distinct tag, so the data flow of the pipeline stays observable while the
claims under verification only concern dimensions, error behaviour, store
contents and identifier strings.
-/

namespace MoreJpeg

/-- The `JPEG_QUALITY` constant (main.rs line 14) used for the final encode. -/
def JPEG_QUALITY : Nat := 25

/-- Modulus of the u32 arithmetic used for image dimensions. -/
def U32 : Nat := 2 ^ 32

/-- `image::imageops::FilterType`; the source only uses `Nearest`. -/
inductive FilterType where
  | Nearest
  | Triangle
deriving DecidableEq

def filterTag : FilterType → Nat
  | .Nearest => 0
  | .Triangle => 1

/-- Abstract `image::DynamicImage`: dimensions plus an abstract pixel
payload on which each operation is recorded with a distinct tag. -/
structure Img where
  width : Nat
  height : Nat
  payload : List Nat
deriving DecidableEq

/-- `DynamicImage::resize_exact`: non-aspect-preserving resize producing
exactly the requested dimensions. -/
def Img.resize_exact (img : Img) (w h : Nat) (f : FilterType) : Img :=
  ⟨w, h, 1 :: filterTag f :: w :: h :: img.payload⟩

/-- `DynamicImage::rotate180`: a 180-degree rotation keeps the dimensions. -/
def Img.rotate180 (img : Img) : Img :=
  ⟨img.width, img.height, 2 :: img.payload⟩

/-- `DynamicImage::huerotate(deg)`: per-pixel colour change, dimensions
unchanged. -/
def Img.huerotate (img : Img) (deg : Nat) : Img :=
  ⟨img.width, img.height, 3 :: deg :: img.payload⟩

/-- An encoded JPEG byte buffer, abstracted as the encoded dimensions plus
the payload trace of the encoded image. -/
structure JpegBytes where
  width : Nat
  height : Nat
  payload : List Nat
deriving DecidableEq

/-- Failures of the pipeline: `image::ImageError` from decoding or
encoding, and the panic of `rand` on an empty `gen_range` interval. -/
inductive ImgError where
  | decodeError
  | encodeError
  | emptyRange
deriving DecidableEq

/-- `JPEGEncoder::new_with_quality(out, q)` followed by
`encode_image(img)`: fails on dimensions the JPEG container cannot
represent (zero, or above 65535), otherwise produces a buffer carrying the
image's dimensions. -/
def encode_jpeg (quality : Nat) (img : Img) : Except ImgError JpegBytes :=
  if img.width = 0 ∨ img.height = 0 ∨ 65535 < img.width ∨ 65535 < img.height then
    .error .encodeError
  else
    .ok ⟨img.width, img.height, 4 :: quality :: img.payload⟩

/-- Decoding a JPEG buffer yields an image with the buffer's dimensions:
the dimensions recorded in the JPEG header are the dimensions of the
decoded image. -/
def decode_jpeg (b : JpegBytes) : Img :=
  ⟨b.width, b.height, 5 :: b.payload⟩

/-- `image::load_from_memory_with_format(&out, Jpeg)` (main.rs line 136):
the buffer was just produced by the JPEG encoder, so decoding succeeds and
returns an image with the encoded dimensions. -/
def load_jpeg (b : JpegBytes) : Except ImgError Img :=
  .ok (decode_jpeg b)

/-- `rand::thread_rng()` abstracted as a stream of raw draws together with
a position; each call consumes one draw. -/
structure Rng where
  stream : Nat → Nat
  pos : Nat

def Rng.next (r : Rng) : Nat × Rng :=
  (r.stream r.pos, ⟨r.stream, r.pos + 1⟩)

/-- `Rng::gen_range(low, high)` of rand 0.7: a uniform draw over the
half-open interval from `low` (inclusive) to `high` (exclusive); the
source panics when the interval is empty, modelled as `none`. -/
def gen_range (low high : Nat) (r : Rng) : Option (Nat × Rng) :=
  if low < high then
    some (low + (r.next).1 % (high - low), (r.next).2)
  else
    none

/-- The draw `rng.gen_range(d / 2, d * 2)` picking one intermediate
dimension in `BitCrush::bitcrush` (main.rs lines 119-122); the
multiplication is u32 arithmetic. -/
def sampleIntermediate (d : Nat) (r : Rng) : Option (Nat × Rng) :=
  gen_range (d / 2) (d * 2 % U32) r

/-- The per-pass quality draw `rng.gen_range(10, 30)` (main.rs line 132). -/
def sampleQuality (r : Rng) : Option (Nat × Rng) :=
  gen_range 10 30 r

/-- The set of intermediate-dimension values a draw can produce for an
original dimension `d`, over all generator states. -/
def possibleIntermediate (d x : Nat) : Prop :=
  ∃ r : Rng, (sampleIntermediate d r).map Prod.fst = some x

/-- The set of quality values the per-pass draw can produce, over all
generator states. -/
def possibleQuality (q : Nat) : Prop :=
  ∃ r : Rng, (sampleQuality r).map Prod.fst = some q

/-- One iteration of the `for _ in 0..2` loop body of `BitCrush::bitcrush`
(main.rs lines 125-138): resize to the intermediate size, rotate 180,
rotate hue by 180, re-encode as JPEG at a fresh quality draw, decode the
produced buffer, resize back to the original dimensions.  The `out` buffer
is cleared at the top of each iteration, so a pass is a function of the
current image and the generator alone. -/
def bitcrushPass (origW origH tempW tempH : Nat) (st : Img × Rng) :
    Except ImgError (Img × Rng) :=
  let current := ((st.1.resize_exact tempW tempH .Nearest).rotate180).huerotate 180
  match sampleQuality st.2 with
  | none => .error .emptyRange
  | some (q, r) =>
    match encode_jpeg q current with
    | .error e => .error e
    | .ok out =>
      match load_jpeg out with
      | .error e => .error e
      | .ok decoded => .ok (decoded.resize_exact origW origH .Nearest, r)

/-- `BitCrush::bitcrush` for `DynamicImage` (main.rs lines 114-141). -/
def bitcrush (img : Img) (rng : Rng) : Except ImgError (Img × Rng) :=
  let origW := img.width
  let origH := img.height
  match sampleIntermediate origW rng with
  | none => .error .emptyRange
  | some (tempW, rng1) =>
    match sampleIntermediate origH rng1 with
    | none => .error .emptyRange
    | some (tempH, rng2) =>
      (List.range 2).foldlM (fun st _ => bitcrushPass origW origH tempW tempH st)
        (img, rng2)

def toExcept (e : ImgError) : Option (Nat × Rng) → Except ImgError (Nat × Rng)
  | none => .error e
  | some p => .ok p

/-- Modelled from the spec: one degradation pass, steps 1-6 of spec
section 4.2, in order: resize (nearest-neighbor, non-aspect-preserving) to
the intermediate size, rotate 180 degrees, rotate the hue by 180 degrees,
re-encode as JPEG at the drawn quality, decode the just-produced JPEG
bytes, resize (nearest-neighbor) back to the original dimensions. -/
def specPass (origW origH tempW tempH : Nat) (st : Img × Rng) :
    Except ImgError (Img × Rng) := do
  let step1 := st.1.resize_exact tempW tempH .Nearest
  let step2 := step1.rotate180
  let step3 := step2.huerotate 180
  let (q, r) ← toExcept .emptyRange (sampleQuality st.2)
  let step4 ← encode_jpeg q step3
  let step5 ← load_jpeg step4
  pure (step5.resize_exact origW origH .Nearest, r)

/-- Modelled from the spec: after drawing the intermediate size, the
transform repeats the degradation pass exactly twice. -/
def specBitcrush (img : Img) (rng : Rng) : Except ImgError (Img × Rng) := do
  let (tempW, rng1) ← toExcept .emptyRange (sampleIntermediate img.width rng)
  let (tempH, rng2) ← toExcept .emptyRange (sampleIntermediate img.height rng1)
  let st1 ← specPass img.width img.height tempW tempH (img, rng2)
  specPass img.width img.height tempW tempH st1

/-- Upload request bodies as seen through `image::load_from_memory`:
either bytes that decode to some image, or bytes that do not. -/
inductive Bytes where
  | decodable (img : Img)
  | undecodable (junk : Nat)
deriving DecidableEq

/-- `image::load_from_memory(&bytes)` (main.rs line 323). -/
def load_from_memory : Bytes → Except ImgError Img
  | .decodable img => .ok img
  | .undecodable _ => .error .decodeError

/-- The upload pipeline of `handle_upload` before the store insert
(main.rs lines 323-326): decode the body, bitcrush, final JPEG encode at
`JPEG_QUALITY`. -/
def transform (b : Bytes) (rng : Rng) : Except ImgError JpegBytes :=
  match load_from_memory b with
  | .error e => .error e
  | .ok img =>
    match bitcrush img rng with
    | .error e => .error e
    | .ok st => encode_jpeg JPEG_QUALITY st.1

/-- The Crockford base32 alphabet used by the ulid crate. -/
def ALPHABET : List Char :=
  ['0', '1', '2', '3', '4', '5', '6', '7', '8', '9',
   'A', 'B', 'C', 'D', 'E', 'F', 'G', 'H', 'J', 'K',
   'M', 'N', 'P', 'Q', 'R', 'S', 'T', 'V', 'W', 'X', 'Y', 'Z']

def digitChar (d : Nat) : Char := ALPHABET.getD d '0'

def charVal (c : Char) : Option Nat := ALPHABET.findIdx? (· == c)

/-- The little-endian base-32 digits of `n`, with a fixed digit count. -/
def leDigits (n : Nat) : Nat → List Nat
  | 0 => []
  | k + 1 => n % 32 :: leDigits (n / 32) k

/-- Value of a little-endian digit list. -/
def undigits : List Nat → Nat
  | [] => 0
  | d :: ds => d + 32 * undigits ds

/-- `Display for Ulid`: 26 Crockford base32 characters, most significant
digit first. -/
def encodeUlid (n : Nat) : List Char :=
  ((leDigits n 26).map digitChar).reverse

/-- The string form of an id as rendered into the upload response URL by
`format!("/images/{}", id)` (main.rs line 329). -/
def renderUlid (n : Nat) : String := ⟨encodeUlid n⟩

def uploadSrc (n : Nat) : String := "/images/" ++ renderUlid n

/-- `str::trim_end_matches(".jpg")`, iterated with fuel: one step strips
one trailing occurrence of ".jpg". -/
def trimJpgAux : Nat → List Char → List Char
  | 0, s => s
  | fuel + 1, s =>
    if 4 ≤ s.length ∧ s.drop (s.length - 4) = ['.', 'j', 'p', 'g'] then
      trimJpgAux fuel (s.take (s.length - 4))
    else s

/-- `x.trim_end_matches(".jpg")` (main.rs line 306): strips every trailing
repetition of ".jpg"; `s.length` steps of fuel always suffice since each
strip removes four characters. -/
def trimJpg (s : List Char) : List Char := trimJpgAux s.length s

/-- Character-by-character base32 decoding; fails on any character outside
the alphabet. -/
def decodeChars : List Char → Option (List Nat)
  | [] => some []
  | c :: cs =>
    match charVal c, decodeChars cs with
    | some d, some ds => some (d :: ds)
    | _, _ => none

/-- Value of a most-significant-first digit list. -/
def undigitsMSB (l : List Nat) : Nat :=
  l.foldl (fun a d => 32 * a + d) 0

/-- `Ulid::from_string` applied after suffix stripping (main.rs lines
304-308): exactly 26 characters, all from the alphabet, folded most
significant digit first in u128 arithmetic. -/
def parseUlid (s : List Char) : Option Nat :=
  let t := trimJpg s
  if t.length = 26 then
    (decodeChars t).map (fun ds => undigitsMSB ds % 2 ^ 128)
  else
    none

/-- `mimes::jpeg()` (mimes.rs lines 20-22). -/
def mimesJpeg : String := "image/jpeg"

/-- `mimes::json()` (mimes.rs lines 16-18). -/
def mimesJson : String := "application/json"

/-- The `Image` struct stored per id (main.rs lines 63-66). -/
structure StoredImage where
  mime : String
  contents : JpegBytes
deriving DecidableEq

/-- `State.images`, a `HashMap<Ulid, Image>` with 128-bit ulid keys.  The
association list keeps the most recent insert first, which gives the
HashMap's insert-replace semantics under first-match lookup. -/
abbrev Store := List (Nat × StoredImage)

/-- `images.get(&id)` under the read lock (main.rs lines 310-311). -/
def storeGet : Store → Nat → Option StoredImage
  | [], _ => none
  | (k, v) :: rest, i => if k = i then some v else storeGet rest i

/-- `images.insert(id, img)` under the write lock (main.rs line 338). -/
def storePut (s : Store) (i : Nat) (img : StoredImage) : Store :=
  (i, img) :: s

/-- The responses `handle_upload` can produce once routed through
`ForWarp::for_warp` (main.rs lines 84-103): the JSON payload on success,
or the fixed 500 response on any pipeline error. -/
inductive UploadResponse where
  | ok (contentType : String) (src : String)
  | serverError (status : Nat) (body : String)
deriving DecidableEq

/-- `handle_upload` (main.rs lines 319-346) combined with the error funnel
of `ForWarp::for_warp`.  The RwLock write guard serialises inserts, so the
state change is the pure store update below; any pipeline error yields the
500 response and no insert. -/
def handle_upload (store : Store) (bytes : Bytes) (newId : Nat) (rng : Rng) :
    Store × UploadResponse :=
  match transform bytes rng with
  | .error _ => (store, .serverError 500 "Something went wrong, sorry")
  | .ok output =>
    let img : StoredImage := ⟨mimesJpeg, output⟩
    (storePut store newId img, .ok mimesJson (uploadSrc newId))

/-- A tide response as built by `serve_image` and `ForTide::for_tide`. -/
structure TideResponse where
  status : Nat
  contentType : Option String
  body : Option JpegBytes
deriving DecidableEq

/-- `serve_image` (main.rs lines 303-317): strip ".jpg" from the path
segment, parse it as a ulid; a parse failure propagates
`TemplateError::InvalidID` as the handler's error; otherwise look the id
up, answering 200 with the stored mime and contents, or 404. -/
def serve_image (store : Store) (nameParam : String) : Except Unit TideResponse :=
  match parseUlid nameParam.data with
  | none => .error ()
  | some i =>
    match storeGet store i with
    | some img => .ok ⟨200, some img.mime, some img.contents⟩
    | none => .ok ⟨404, none, none⟩

/-- `ForTide::for_tide` (main.rs lines 34-44): every handler error becomes
a 500 InternalServerError response with a generic body. -/
def for_tide (r : Except Unit TideResponse) : TideResponse :=
  match r with
  | .ok resp => resp
  | .error _ => ⟨500, none, none⟩

/-- The retrieval route: `serve_image(req).await.for_tide()`. -/
def serveImageRoute (store : Store) (nameParam : String) : TideResponse :=
  for_tide (serve_image store nameParam)

/-- Store states reachable from the empty startup store through upload
requests; `handle_upload` is the only writer of `State.images`. -/
inductive Reachable : Store → Prop where
  | init : Reachable []
  | step (s : Store) (b : Bytes) (newId : Nat) (r : Rng) :
      Reachable s → Reachable (handle_upload s b newId r).1

/-- A concrete generator state whose raw draws are all zero. -/
def rng0 : Rng := ⟨fun _ => 0, 0⟩

/-- A concrete 2 by 2 decoded image. -/
def imgW : Img := ⟨2, 2, []⟩

/-- A concrete upload body decoding to `imgW`. -/
def bytesW : Bytes := .decodable imgW

/-- The JPEG buffer `transform bytesW rng0` produces. -/
def outW : JpegBytes :=
  ⟨2, 2, [4, 25, 1, 0, 2, 2, 5, 4, 10, 3, 180, 2, 1, 0, 1, 1,
          1, 0, 2, 2, 5, 4, 10, 3, 180, 2, 1, 0, 1, 1]⟩

/-- The store entry the upload of `bytesW` inserts. -/
def storedW : StoredImage := ⟨mimesJpeg, outW⟩

/-- Characterisation of the values `gen_range` can produce over all
generator states: exactly the half-open interval, when it is non-empty. -/
theorem gen_range_possible (low high x : Nat) :
    (∃ r : Rng, (gen_range low high r).map Prod.fst = some x) ↔
      low < high ∧ low ≤ x ∧ x < high := by
  constructor
  · rintro ⟨r, h⟩
    by_cases hlh : low < high
    · simp [gen_range, hlh] at h
      have hm : (r.next).1 % (high - low) < high - low := Nat.mod_lt _ (by omega)
      exact ⟨hlh, by omega, by omega⟩
    · simp [gen_range, hlh] at h
  · rintro ⟨hlh, hlx, hxh⟩
    refine ⟨⟨fun _ => x - low, 0⟩, ?_⟩
    simp [gen_range, hlh, Rng.next]
    rw [Nat.mod_eq_of_lt (by omega)]
    omega

/-- Claim C3 counterexample: for an original width of 1, the upper bound
`W * 2 = 2` is not a possible outcome of the intermediate-size draw, so
the range is not inclusive of its upper bound. -/
theorem C3_upper_bound_not_possible : ¬ possibleIntermediate 1 (1 * 2) := by
  intro h
  have h2 : (∃ r : Rng, (gen_range (1 / 2) (1 * 2 % U32) r).map Prod.fst = some 2) := h
  have h3 := (gen_range_possible (1 / 2) (1 * 2 % U32) 2).mp h2
  simp [U32] at h3

/-- Claim C3 (amended): for an original dimension `d` with `1 ≤ d` and no
u32 overflow in `d * 2`, the intermediate dimension drawn by the transform
ranges uniformly over the half-open interval from `d / 2` (inclusive) to
`d * 2` (exclusive); `d * 2` itself is not a possible outcome. -/
theorem C3_intermediate_half_open (d x : Nat) (h1 : 1 ≤ d) (h2 : d ≤ 2 ^ 31 - 1) :
    possibleIntermediate d x ↔ d / 2 ≤ x ∧ x < d * 2 := by
  have hmod : d * 2 % U32 = d * 2 := by
    apply Nat.mod_eq_of_lt
    simp only [U32]
    omega
  unfold possibleIntermediate sampleIntermediate
  rw [hmod, gen_range_possible]
  constructor
  · rintro ⟨_, hb, hc⟩
    exact ⟨hb, hc⟩
  · rintro ⟨hb, hc⟩
    exact ⟨by omega, hb, hc⟩

/-- Claim C3 witness: for a 3-pixel-wide original, 5 is a possible
intermediate width and lies in the half-open range from 1 to 6. -/
theorem C3_intermediate_half_open_witness : possibleIntermediate 3 5 :=
  (C3_intermediate_half_open 3 5 (by omega) (by omega)).mpr (by omega)

/-- Claim C4 counterexample: quality 30 is not a possible outcome of the
per-pass quality draw, so the range is not inclusive of its upper bound. -/
theorem C4_quality_30_not_possible : ¬ possibleQuality 30 := by
  intro h
  have h2 : (∃ r : Rng, (gen_range 10 30 r).map Prod.fst = some 30) := h
  have h3 := (gen_range_possible 10 30 30).mp h2
  omega

/-- Claim C4 (amended): in every pass of the transform loop the JPEG
re-encode quality ranges uniformly over the half-open interval from 10
(inclusive) to 30 (exclusive): 10 through 29 are possible, 30 is not. -/
theorem C4_quality_half_open (q : Nat) : possibleQuality q ↔ 10 ≤ q ∧ q < 30 := by
  unfold possibleQuality sampleQuality
  rw [gen_range_possible]
  omega

/-- Claim C10 counterexample: at width `2 ^ 31` (a value of the u32
dimension type with width at least 1), `d * 2` wraps to 0 in u32
arithmetic, the claimed inequality `d / 2 < d * 2` fails in that
arithmetic, and the intermediate-size draw hits the empty-range failure
case of the generator. -/
theorem C10_overflow_empty_range :
    1 ≤ 2 ^ 31 ∧ ¬ (2 ^ 31 / 2 < 2 ^ 31 * 2 % U32) ∧
      sampleIntermediate (2 ^ 31) rng0 = none := by
  refine ⟨by norm_num, ?_, ?_⟩
  · simp [U32]
  · simp [sampleIntermediate, gen_range, U32]

/-- Claim C10 (amended): for every dimension `d` with `1 ≤ d` that keeps
`d * 2` below the u32 wrap (any `d` up to `2 ^ 31 - 1`), the range bounds
are non-empty in the integer arithmetic used and the intermediate-size
draw never hits the empty-range failure case. -/
theorem C10_sample_never_empty (d : Nat) (r : Rng) (h1 : 1 ≤ d)
    (h2 : d ≤ 2 ^ 31 - 1) :
    d / 2 < d * 2 % U32 ∧ (sampleIntermediate d r).isSome = true := by
  have hmod : d * 2 % U32 = d * 2 := by
    apply Nat.mod_eq_of_lt
    simp only [U32]
    omega
  have hlt : d / 2 < d * 2 % U32 := by rw [hmod]; omega
  refine ⟨hlt, ?_⟩
  simp [sampleIntermediate, gen_range, hlt]

/-- Claim C10 witness: at dimension 2 the bounds are non-empty and the
draw succeeds for the all-zero generator state. -/
theorem C10_sample_never_empty_witness :
    2 / 2 < 2 * 2 % U32 ∧ (sampleIntermediate 2 rng0).isSome = true :=
  C10_sample_never_empty 2 rng0 (by omega) (by omega)

/-- Claim C5 counterexample: the retrieval handler answers the malformed
path segment "not-a-valid-id" with status 500, which is not in the 4xx
client-error class. -/
theorem C5_invalid_id_is_500 :
    (serveImageRoute [] "not-a-valid-id").status = 500 ∧
      ¬ (400 ≤ (serveImageRoute [] "not-a-valid-id").status ∧
         (serveImageRoute [] "not-a-valid-id").status < 500) := by
  constructor
  · rfl
  · intro h
    rw [show (serveImageRoute [] "not-a-valid-id").status = 500 from rfl] at h
    omega

/-- Claim C5 (amended): for every retrieval request whose path segment
does not parse as a well-formed id after suffix stripping, the handler
error is funnelled through `for_tide` into the fixed 500
InternalServerError response, a server error rather than a client
error. -/
theorem C5_invalid_id_server_error (store : Store) (name : String)
    (h : parseUlid name.data = none) :
    serveImageRoute store name = ⟨500, none, none⟩ := by
  simp [serveImageRoute, serve_image, for_tide, h]

/-- Claim C5 witness: the malformed segment "nope" produces the 500
response on the empty store. -/
theorem C5_invalid_id_server_error_witness :
    serveImageRoute [] "nope" = ⟨500, none, none⟩ :=
  C5_invalid_id_server_error [] "nope" (by decide)

/-- Claim C6: when the upload body fails to decode, or the transform or
final encode fails, the handler returns the 500 server-error response and
the store is returned unchanged: no entry is inserted. -/
theorem C6_failed_upload_leaves_store_unchanged (store : Store) (bytes : Bytes)
    (newId : Nat) (rng : Rng) (e : ImgError) (h : transform bytes rng = .error e) :
    handle_upload store bytes newId rng =
      (store, .serverError 500 "Something went wrong, sorry") := by
  simp [handle_upload, h]

/-- Claim C6 witness: a non-image body leaves the empty store empty and
yields the 500 response. -/
theorem C6_failed_upload_leaves_store_unchanged_witness :
    handle_upload [] (Bytes.undecodable 0) 7 rng0 =
      ([], .serverError 500 "Something went wrong, sorry") :=
  C6_failed_upload_leaves_store_unchanged [] (Bytes.undecodable 0) 7 rng0
    .decodeError rfl

/-- Lookup of an id survives any sequence of later inserts under distinct
ids. -/
theorem storeGet_foldl_put (i : Nat) (img : StoredImage) :
    ∀ (later : List (Nat × StoredImage)) (base : Store),
      (∀ e ∈ later, e.1 ≠ i) → storeGet base i = some img →
      storeGet (later.foldl (fun st e => storePut st e.1 e.2) base) i = some img := by
  intro later
  induction later with
  | nil =>
    intro base _ hb
    simpa using hb
  | cons e rest ih =>
    intro base hne hb
    simp only [List.foldl_cons]
    apply ih
    · intro e2 he2
      exact hne e2 (List.mem_cons_of_mem _ he2)
    · have hei : e.1 ≠ i := hne e (List.mem_cons_self _ _)
      simpa [storePut, storeGet, hei] using hb

/-- Claim C2: once `put` has returned, every later `get` for that id, even
after any number of further inserts under the distinct fresh ids the
generator supplies, returns `some` of the identical stored image, with the
same contents and content type. -/
theorem C2_put_then_get (s : Store) (i : Nat) (img : StoredImage)
    (later : List (Nat × StoredImage)) (h : ∀ e ∈ later, e.1 ≠ i) :
    storeGet (later.foldl (fun st e => storePut st e.1 e.2) (storePut s i img)) i
      = some img := by
  apply storeGet_foldl_put i img later (storePut s i img) h
  simp [storePut, storeGet]

/-- Claim C2 witness: after inserting under id 0 and then under id 1, id 0
still maps to the originally inserted image. -/
theorem C2_put_then_get_witness :
    storeGet ([(1, storedW)].foldl (fun st e => storePut st e.1 e.2)
      (storePut [] 0 storedW)) 0 = some storedW :=
  C2_put_then_get [] 0 storedW [(1, storedW)] (by decide)

/-- Claim C8: in every reachable state of the image store, every entry has
content type `image/jpeg`, whatever the format of the uploaded input. -/
theorem C8_store_entries_jpeg (s : Store) (hs : Reachable s) :
    ∀ i img, (i, img) ∈ s → img.mime = mimesJpeg := by
  induction hs with
  | init =>
    intro i img h
    simp at h
  | step s b newId r _ ih =>
    intro i img h
    cases ht : transform b r with
    | error e =>
      simp [handle_upload, ht] at h
      exact ih i img h
    | ok out =>
      simp only [handle_upload, ht, storePut] at h
      rcases List.mem_cons.mp h with h1 | h2
      · have himg : img = ⟨mimesJpeg, out⟩ := congrArg Prod.snd h1
        rw [himg]
      · exact ih i img h2

/-- Claim C8 witness: the entry inserted by a successful upload of
`bytesW` has content type `image/jpeg`. -/
theorem C8_store_entries_jpeg_witness : storedW.mime = mimesJpeg :=
  C8_store_entries_jpeg (handle_upload [] bytesW 0 rng0).1
    (Reachable.step [] bytesW 0 rng0 Reachable.init) 0 storedW (by decide)

/-- A successful JPEG encode records the image's dimensions. -/
theorem encode_jpeg_ok_dims (q : Nat) (i : Img) (j : JpegBytes)
    (h : encode_jpeg q i = .ok j) : j.width = i.width ∧ j.height = i.height := by
  unfold encode_jpeg at h
  split at h
  · exact absurd h (by simp)
  · simp only [Except.ok.injEq] at h
    rw [← h]
    exact ⟨rfl, rfl⟩

/-- A successful pass of the bitcrush loop ends with the resize back to
the original dimensions, so its result has exactly those dimensions. -/
theorem bitcrushPass_ok_dims (oW oH tW tH : Nat) (st p : Img × Rng)
    (h : bitcrushPass oW oH tW tH st = .ok p) :
    p.1.width = oW ∧ p.1.height = oH := by
  simp only [bitcrushPass] at h
  split at h
  · exact absurd h (by simp)
  · split at h
    · exact absurd h (by simp)
    · simp only [load_jpeg, Except.ok.injEq] at h
      rw [← h]
      exact ⟨rfl, rfl⟩

/-- A successful bitcrush returns an image with the input's dimensions. -/
theorem bitcrush_ok_dims (img : Img) (rng : Rng) (p : Img × Rng)
    (h : bitcrush img rng = .ok p) :
    p.1.width = img.width ∧ p.1.height = img.height := by
  have bindErr : ∀ (e : ImgError) (f : Img × Rng → Except ImgError (Img × Rng)),
      (Except.error e >>= f) = Except.error e := fun _ _ => rfl
  have bindOk : ∀ (s : Img × Rng) (f : Img × Rng → Except ImgError (Img × Rng)),
      (Except.ok s >>= f) = f s := fun _ _ => rfl
  have pureEq : ∀ s : Img × Rng,
      (pure s : Except ImgError (Img × Rng)) = Except.ok s := fun _ => rfl
  simp only [bitcrush] at h
  cases hW : sampleIntermediate img.width rng with
  | none => simp [hW] at h
  | some pW =>
    obtain ⟨tW, rng1⟩ := pW
    simp only [hW] at h
    cases hH : sampleIntermediate img.height rng1 with
    | none => simp [hH] at h
    | some pH =>
      obtain ⟨tH, rng2⟩ := pH
      simp only [hH] at h
      simp only [show List.range 2 = [0, 1] from rfl, List.foldlM_cons,
        List.foldlM_nil] at h
      cases h1 : bitcrushPass img.width img.height tW tH (img, rng2) with
      | error e =>
        simp only [h1, bindErr] at h
        exact Except.noConfusion h
      | ok s1 =>
        simp only [h1, bindOk] at h
        cases h2 : bitcrushPass img.width img.height tW tH s1 with
        | error e =>
          simp only [h2, bindErr] at h
          exact Except.noConfusion h
        | ok s2 =>
          simp only [h2, bindOk, pureEq, Except.ok.injEq] at h
          rw [← h]
          exact bitcrushPass_ok_dims img.width img.height tW tH s1 s2 h2

/-- Claim C1: for every input byte string that decodes to an image of size
(W, H), the pipeline of `handle_upload` (bitcrush, then the final JPEG
encode) either fails with an error or succeeds producing JPEG bytes that
decode to an image of size exactly (W, H). -/
theorem C1_transform_preserves_size (b : Bytes) (rng : Rng) (img : Img)
    (out : JpegBytes) (hdec : load_from_memory b = .ok img)
    (hok : transform b rng = .ok out) :
    (decode_jpeg out).width = img.width ∧ (decode_jpeg out).height = img.height := by
  simp only [transform, hdec] at hok
  cases hb : bitcrush img rng with
  | error e =>
    rw [hb] at hok
    exact absurd hok (by simp)
  | ok p =>
    rw [hb] at hok
    have h1 := bitcrush_ok_dims img rng p hb
    have h2 := encode_jpeg_ok_dims JPEG_QUALITY p.1 out hok
    exact ⟨by simpa [decode_jpeg, h2.1] using h1.1,
           by simpa [decode_jpeg, h2.2] using h1.2⟩

/-- Claim C1 witness: the concrete 2 by 2 upload succeeds and its output
decodes back to a 2 by 2 image. -/
theorem C1_transform_preserves_size_witness :
    load_from_memory bytesW = .ok imgW ∧ transform bytesW rng0 = .ok outW ∧
      (decode_jpeg outW).width = imgW.width ∧
      (decode_jpeg outW).height = imgW.height :=
  ⟨rfl, rfl, C1_transform_preserves_size bytesW rng0 imgW outW rfl rfl⟩

/-- The source loop body agrees with the spec-worded degradation pass. -/
theorem bitcrushPass_eq_specPass (oW oH tW tH : Nat) (st : Img × Rng) :
    bitcrushPass oW oH tW tH st = specPass oW oH tW tH st := by
  have bindOk : ∀ {α β : Type} (a : α) (f : α → Except ImgError β),
      (Except.ok a >>= f) = f a := fun _ _ => rfl
  have bindErr : ∀ {α β : Type} (e : ImgError) (f : α → Except ImgError β),
      ((Except.error e : Except ImgError α) >>= f) = Except.error e := fun _ _ => rfl
  simp only [bitcrushPass, specPass]
  cases hq : sampleQuality st.2 with
  | none => simp [hq, toExcept, bindErr]
  | some pr =>
    obtain ⟨q, r⟩ := pr
    simp only [hq, toExcept, bindOk]
    cases he : encode_jpeg q (((st.1.resize_exact tW tH .Nearest).rotate180).huerotate 180) with
    | error e => simp [he, bindErr]
    | ok out => simp [he, bindOk, load_jpeg, pure, Except.pure]

/-- Claim C9: for every decoded input image, `bitcrush` draws the
intermediate size and then executes the degradation pass exactly twice,
each pass performing, in order: resize (nearest-neighbor,
non-aspect-preserving) to the intermediate size, rotate 180 degrees,
rotate hue by 180 degrees, re-encode as JPEG, decode the produced JPEG
bytes, and resize (nearest-neighbor) back to the original dimensions. -/
theorem C9_bitcrush_two_spec_passes (img : Img) (rng : Rng) :
    bitcrush img rng = specBitcrush img rng := by
  have bindOk : ∀ {α β : Type} (a : α) (f : α → Except ImgError β),
      (Except.ok a >>= f) = f a := fun _ _ => rfl
  have bindErr : ∀ {α β : Type} (e : ImgError) (f : α → Except ImgError β),
      ((Except.error e : Except ImgError α) >>= f) = Except.error e := fun _ _ => rfl
  have pureEq : ∀ s : Img × Rng,
      (pure s : Except ImgError (Img × Rng)) = Except.ok s := fun _ => rfl
  simp only [bitcrush, specBitcrush]
  cases hW : sampleIntermediate img.width rng with
  | none => simp [hW, toExcept, bindErr]
  | some pW =>
    obtain ⟨tW, rng1⟩ := pW
    simp only [hW, toExcept, bindOk]
    cases hH : sampleIntermediate img.height rng1 with
    | none => simp [hH, toExcept, bindErr]
    | some pH =>
      obtain ⟨tH, rng2⟩ := pH
      simp only [hH, toExcept, bindOk]
      simp only [show List.range 2 = [0, 1] from rfl, List.foldlM_cons,
        List.foldlM_nil]
      simp only [← bitcrushPass_eq_specPass]
      cases h1 : bitcrushPass img.width img.height tW tH (img, rng2) with
      | error e => simp [h1, bindErr]
      | ok s1 =>
        simp only [h1, bindOk]
        cases h2 : bitcrushPass img.width img.height tW tH s1 with
        | error e => simp [h2, bindErr]
        | ok s2 => simp [h2, bindOk, pureEq]

/-- Each digit list produced by `leDigits` has the requested length. -/
theorem leDigits_length (k : Nat) : ∀ n, (leDigits n k).length = k := by
  induction k with
  | zero => intro n; rfl
  | succ k ih => intro n; simp [leDigits, ih]

/-- Every digit produced by `leDigits` is below the base. -/
theorem leDigits_lt (k : Nat) : ∀ n d, d ∈ leDigits n k → d < 32 := by
  induction k with
  | zero =>
    intro n d h
    simp [leDigits] at h
  | succ k ih =>
    intro n d h
    simp only [leDigits, List.mem_cons] at h
    rcases h with h | h
    · rw [h]; exact Nat.mod_lt _ (by omega)
    · exact ih _ d h

/-- Digit extraction followed by evaluation is the identity below the
digit capacity. -/
theorem undigits_leDigits (k : Nat) : ∀ n, n < 32 ^ k → undigits (leDigits n k) = n := by
  induction k with
  | zero =>
    intro n h
    simp only [pow_zero, Nat.lt_one_iff] at h
    simp [h, leDigits, undigits]
  | succ k ih =>
    intro n h
    have hdiv : n / 32 < 32 ^ k := by
      have h32 : 32 ^ (k + 1) = 32 * 32 ^ k := by ring
      rw [h32] at h
      exact Nat.div_lt_of_lt_mul h
    simp only [leDigits, undigits, ih (n / 32) hdiv]
    omega

/-- Decoding a rendered digit recovers the digit. -/
theorem charVal_digitChar : ∀ d : Fin 32, charVal (digitChar d.val) = some d.val := by
  decide

/-- Character-level decoding inverts character-level rendering on digit
lists below the base. -/
theorem decodeChars_map (ds : List Nat) (h : ∀ d ∈ ds, d < 32) :
    decodeChars (ds.map digitChar) = some ds := by
  induction ds with
  | nil => rfl
  | cons d rest ih =>
    have hd : d < 32 := h d (List.mem_cons_self _ _)
    have hv : charVal (digitChar d) = some d := charVal_digitChar ⟨d, hd⟩
    simp only [List.map_cons, decodeChars, hv,
      ih (fun x hx => h x (List.mem_cons_of_mem _ hx))]

/-- Folding most-significant-first over the reversed digit list evaluates
the little-endian digit list. -/
theorem undigitsMSB_reverse (ds : List Nat) : undigitsMSB ds.reverse = undigits ds := by
  induction ds with
  | nil => rfl
  | cons d rest ih =>
    simp only [List.reverse_cons, undigitsMSB, List.foldl_append, List.foldl_cons,
      List.foldl_nil, undigits]
    simp only [undigitsMSB] at ih
    omega

/-- The rendered id string always has 26 characters. -/
theorem encodeUlid_length (n : Nat) : (encodeUlid n).length = 26 := by
  simp [encodeUlid, leDigits_length]

/-- No alphabet character is a lowercase g. -/
theorem digitChar_ne_g : ∀ d : Fin 32, digitChar d.val ≠ 'g' := by
  decide

/-- A rendered id never ends in ".jpg", since its last character is an
alphabet character. -/
theorem encode_no_jpg (n : Nat) :
    ¬ ((encodeUlid n).drop ((encodeUlid n).length - 4) = ['.', 'j', 'p', 'g']) := by
  intro hdrop
  have hlen := encodeUlid_length n
  have h1 : (encodeUlid n).reverse = (leDigits n 26).map digitChar := by
    simp [encodeUlid]
  have hstep : leDigits n 26 = n % 32 :: leDigits (n / 32) 25 := rfl
  have h2 : (encodeUlid n).reverse.head? = some (digitChar (n % 32)) := by
    rw [h1, hstep]
    rfl
  have h3 : encodeUlid n = (encodeUlid n).take 22 ++ ['.', 'j', 'p', 'g'] := by
    conv_lhs => rw [← List.take_append_drop 22 (encodeUlid n)]
    rw [show (encodeUlid n).length - 4 = 22 from by rw [hlen]] at hdrop
    rw [hdrop]
  have h4 : (encodeUlid n).reverse.head? = some 'g' := by
    conv_lhs => rw [h3]
    rw [List.reverse_append]
    rfl
  rw [h2] at h4
  simp only [Option.some.injEq] at h4
  exact digitChar_ne_g ⟨n % 32, Nat.mod_lt _ (by omega)⟩ h4

/-- Suffix stripping leaves a string alone when it does not end in the
pattern, whatever the fuel. -/
theorem trimJpgAux_id (fuel : Nat) (s : List Char)
    (h : ¬ (s.drop (s.length - 4) = ['.', 'j', 'p', 'g'])) : trimJpgAux fuel s = s := by
  cases fuel with
  | zero => rfl
  | succ k =>
    simp only [trimJpgAux]
    rw [if_neg]
    intro hc
    exact h hc.2

/-- Suffix stripping leaves every rendered id unchanged. -/
theorem trimJpg_encode (n : Nat) : trimJpg (encodeUlid n) = encodeUlid n :=
  trimJpgAux_id _ _ (encode_no_jpg n)

/-- Claim C7: for every 128-bit id the generator can produce, parsing the
rendered string form used in the upload response URL, with the retrieval
handler's suffix stripping and string-to-id conversion, yields the
original id. -/
theorem C7_ulid_round_trip (n : Nat) (h : n < 2 ^ 128) :
    parseUlid (renderUlid n).data = some n := by
  have hdata : (renderUlid n).data = encodeUlid n := rfl
  rw [hdata]
  have hcap : n < 32 ^ 26 := by
    have hle : (2 : Nat) ^ 128 ≤ 32 ^ 26 := by norm_num
    omega
  have hdec : decodeChars (encodeUlid n) = some (leDigits n 26).reverse := by
    simp only [encodeUlid]
    rw [← List.map_reverse]
    exact decodeChars_map _ (fun d hd => leDigits_lt 26 n d (List.mem_reverse.mp hd))
  simp only [parseUlid, trimJpg_encode, encodeUlid_length, if_true, hdec,
    Option.map_some']
  rw [undigitsMSB_reverse, undigits_leDigits 26 n hcap, Nat.mod_eq_of_lt h]

/-- Claim C7 witness: the id 1 renders to 26 characters and parses back to
itself. -/
theorem C7_ulid_round_trip_witness :
    1 < 2 ^ 128 ∧ parseUlid (renderUlid 1).data = some 1 :=
  ⟨by norm_num, C7_ulid_round_trip 1 (by norm_num)⟩

end MoreJpeg
